import Mathlib

/-!
# Verification of the TLS credential-conversion subsystem (`hops/tls.py`)

Shallow embedding of `src/hops/tls.py`: strings are modelled as `List Char`,
byte sequences as `List Nat` (each element `< 256`), and the filesystem /
error behaviour as explicit state passing with an event trace.

Python standard-library functions used by the source are embedded from their
documented semantics:
* `base64.b64encode` / `base64.b64decode` (RFC 4648 standard alphabet with
  `=` padding; `b64decode` is modelled on properly padded input, which is the
  only shape this program feeds it);
* `textwrap.wrap(s, 64)`, which on text over the Base64 alphabet (no
  whitespace, no hyphens) splits into consecutive 64-character pieces;
* `string.printable`, the literal 100-character constant.
-/

namespace HopsTls

/-! ## Base64 (embedding of `base64.b64encode` / `base64.b64decode`) -/

/-- The RFC 4648 standard-alphabet character for a sextet value `s < 64`
(`A`–`Z`, `a`–`z`, `0`–`9`, `+`, `/`). -/
def encChar (s : Nat) : Char :=
  if s < 26 then Char.ofNat (65 + s)
  else if s < 52 then Char.ofNat (97 + (s - 26))
  else if s < 62 then Char.ofNat (48 + (s - 52))
  else if s = 62 then '+'
  else '/'

/-- Sextet value of a standard-alphabet Base64 character (inverse of
`encChar` on the alphabet). -/
def decChar (c : Char) : Nat :=
  if 65 ≤ c.toNat ∧ c.toNat ≤ 90 then c.toNat - 65
  else if 97 ≤ c.toNat ∧ c.toNat ≤ 122 then c.toNat - 97 + 26
  else if 48 ≤ c.toNat ∧ c.toNat ≤ 57 then c.toNat - 48 + 52
  else if c = '+' then 62
  else 63

/-- `base64.b64encode`: bytes to Base64 text, processing 3-byte groups into
4 characters, with `=` padding for a 1- or 2-byte final group. -/
def b64encode : List Nat → List Char
  | [] => []
  | [a] => [encChar (a / 4), encChar (a % 4 * 16), '=', '=']
  | [a, b] => [encChar (a / 4), encChar (a % 4 * 16 + b / 16), encChar (b % 16 * 4), '=']
  | a :: b :: c :: rest =>
      encChar (a / 4) :: encChar (a % 4 * 16 + b / 16) ::
      encChar (b % 16 * 4 + c / 64) :: encChar (c % 64) :: b64encode rest

/-- `base64.b64decode` on properly padded input: 4-character groups back to
3 bytes, with a padded final group yielding 1 or 2 bytes. -/
def b64decode : List Char → List Nat
  | w :: x :: y :: z :: rest =>
      if y = '=' then [decChar w * 4 + decChar x / 16]
      else if z = '=' then
        [decChar w * 4 + decChar x / 16, decChar x % 16 * 16 + decChar y / 4]
      else
        (decChar w * 4 + decChar x / 16) ::
        (decChar x % 16 * 16 + decChar y / 4) ::
        ((decChar y % 4 * 64 + decChar z) :: b64decode rest)
  | _ => []

theorem decChar_encChar : ∀ s, s < 64 → decChar (encChar s) = s := by decide

theorem encChar_ne_eq : ∀ s, s < 64 → encChar s ≠ '=' := by decide

/-- The Base64 decoder inverts the encoder on any byte sequence. -/
theorem b64decode_b64encode (d : List Nat) (h : ∀ x ∈ d, x < 256) :
    b64decode (b64encode d) = d := by
  induction d using b64encode.induct with
  | case1 => simp [b64encode, b64decode]
  | case2 a =>
      have ha : a < 256 := h a (by simp)
      simp only [b64encode, b64decode, if_true]
      rw [decChar_encChar _ (by omega), decChar_encChar _ (by omega)]
      simp only [List.cons.injEq, and_true]
      omega
  | case3 a b =>
      have ha : a < 256 := h a (by simp)
      have hb : b < 256 := h b (by simp)
      simp only [b64encode, b64decode]
      rw [if_neg (encChar_ne_eq _ (by omega))]
      rw [if_pos trivial]
      rw [decChar_encChar _ (by omega), decChar_encChar _ (by omega),
          decChar_encChar _ (by omega)]
      simp only [List.cons.injEq, and_true]
      constructor <;> omega
  | case4 a b c rest ih =>
      have ha : a < 256 := h a (by simp)
      have hb : b < 256 := h b (by simp)
      have hc : c < 256 := h c (by simp)
      simp only [b64encode, b64decode]
      rw [if_neg (encChar_ne_eq _ (by omega)), if_neg (encChar_ne_eq _ (by omega))]
      rw [decChar_encChar _ (by omega), decChar_encChar _ (by omega),
          decChar_encChar _ (by omega), decChar_encChar _ (by omega)]
      rw [ih (fun x hx => h x (by simp [hx]))]
      simp only [List.cons.injEq, and_true]
      refine ⟨by omega, by omega, by omega⟩

/-! ## Line wrapping (embedding of `textwrap.wrap(s, 64)`)

On text over the Base64 alphabet — no whitespace and no hyphens, which is all
this program ever wraps — `textwrap.wrap(s, 64)` splits `s` into consecutive
pieces of exactly 64 characters (the last piece may be shorter), and returns
`[]` for the empty string.  `wrap64Go` carries a fuel argument so the
recursion is structural; `chunks64` instantiates the fuel with the length of
the input, which always suffices. -/

def wrap64Go : Nat → List Char → List (List Char)
  | _, [] => []
  | Nat.succ n, l => l.take 64 :: wrap64Go n (l.drop 64)
  | 0, _ => []

/-- `textwrap.wrap(s, 64)` for Base64 text (see `wrap64Go`). -/
def chunks64 (l : List Char) : List (List Char) := wrap64Go l.length l

theorem wrap64Go_fuel : ∀ (n m : Nat) (l : List Char),
    l.length ≤ n → l.length ≤ m → wrap64Go n l = wrap64Go m l := by
  intro n
  induction n with
  | zero =>
      intro m l hn _
      have : l = [] := List.eq_nil_of_length_eq_zero (Nat.le_zero.mp hn)
      subst this
      cases m <;> rfl
  | succ n ih =>
      intro m l hn hm
      cases l with
      | nil => cases m <;> rfl
      | cons c cs =>
          cases m with
          | zero => simp at hm
          | succ m =>
              simp only [wrap64Go]
              rw [ih m ((c :: cs).drop 64)
                    (by simp only [List.length_drop, List.length_cons] at *; omega)
                    (by simp only [List.length_drop, List.length_cons] at *; omega)]

theorem chunks64_nil : chunks64 [] = [] := rfl

theorem chunks64_cons (c : Char) (cs : List Char) :
    chunks64 (c :: cs) = (c :: cs).take 64 :: chunks64 ((c :: cs).drop 64) := by
  simp only [chunks64, List.length_cons, wrap64Go]
  rw [wrap64Go_fuel cs.length ((c :: cs).drop 64).length ((c :: cs).drop 64)
        (by simp only [List.length_drop, List.length_cons]; omega) le_rfl]

/-- Concatenating the wrapped pieces recovers the original text. -/
theorem chunks64_flatten (l : List Char) : (chunks64 l).flatten = l := by
  cases l with
  | nil => rfl
  | cons c cs =>
      rw [chunks64_cons, List.flatten_cons, chunks64_flatten ((c :: cs).drop 64)]
      exact List.take_append_drop 64 (c :: cs)
termination_by l.length
decreasing_by simp; omega

/-- Every wrapped piece is nonempty and at most 64 characters long. -/
theorem chunks64_mem_length (l : List Char) :
    ∀ c ∈ chunks64 l, 0 < c.length ∧ c.length ≤ 64 := by
  cases l with
  | nil => intro c hc; simp [chunks64_nil] at hc
  | cons a as =>
      intro c hc
      rw [chunks64_cons] at hc
      rcases List.mem_cons.mp hc with h | h
      · subst h
        simp only [List.length_take, List.length_cons]
        omega
      · exact chunks64_mem_length ((a :: as).drop 64) c h
termination_by l.length
decreasing_by simp; omega

/-- Every wrapped piece except the last is exactly 64 characters long. -/
theorem chunks64_dropLast_length (l : List Char) :
    ∀ c ∈ (chunks64 l).dropLast, c.length = 64 := by
  cases l with
  | nil => intro c hc; simp [chunks64_nil] at hc
  | cons a as =>
      intro c hc
      rw [chunks64_cons] at hc
      by_cases h64 : as.length + 1 ≤ 64
      · have hdrop : (a :: as).drop 64 = [] :=
          List.drop_eq_nil_of_le (by simp only [List.length_cons]; omega)
        rw [hdrop, chunks64_nil] at hc
        simp at hc
      · have hdrop : (a :: as).drop 64 ≠ [] := by
          intro hnil
          have := congrArg List.length hnil
          simp at this
          omega
        obtain ⟨b, bs, hbs⟩ := List.exists_cons_of_ne_nil hdrop
        rw [hbs, chunks64_cons] at hc
        rw [List.dropLast_cons₂] at hc
        rcases List.mem_cons.mp hc with h | h
        · subst h
          simp only [List.length_take, List.length_cons]
          omega
        · rw [← chunks64_cons, ← hbs] at h
          exact chunks64_dropLast_length ((a :: as).drop 64) c h
termination_by l.length
decreasing_by simp; omega

/-! ## `bytes_to_pem_str` (tls.py lines 94–109) -/

/-- tls.py lines 94–109: begin marker plus newline, the Base64 text wrapped
at 64 columns and joined with `"\r\n"` plus a final newline, then the end
marker plus newline. -/
def bytes_to_pem_str (der_bytes : List Nat) (pem_type : List Char) : List Char :=
  ("-----BEGIN ".toList ++ pem_type ++ "-----".toList) ++ ['\n']
  ++ (List.intercalate ['\r', '\n'] (chunks64 (b64encode der_bytes)) ++ ['\n'])
  ++ (("-----END ".toList ++ pem_type ++ "-----".toList) ++ ['\n'])

/-- The Base64 body lines of the PEM block for `d`. -/
def pemBodyLines (d : List Nat) : List (List Char) := chunks64 (b64encode d)

/-- The block layout exactly as the spec words it (§6 "PEM text format"):
`-----BEGIN <LABEL>-----` and a newline, Base64 body lines joined by
carriage-return + newline and a final newline, then `-----END <LABEL>-----`
and a newline. -/
def pemSpecText (d : List Nat) (label : List Char) : List Char :=
  "-----BEGIN ".toList ++ label ++ "-----".toList ++ "\n".toList
  ++ List.intercalate "\r\n".toList (pemBodyLines d)
  ++ "\n".toList
  ++ "-----END ".toList ++ label ++ "-----".toList ++ "\n".toList

theorem bytes_to_pem_str_eq_spec (d : List Nat) (L : List Char) :
    bytes_to_pem_str d L = pemSpecText d L := by
  simp only [bytes_to_pem_str, pemSpecText, pemBodyLines, List.append_assoc]
  rfl

/-! ## The loaded keystore model (pyjks `jks.KeyStore`)

`jks.KeyStore.load(path, pw, try_decrypt_keys=True)` produces a keystore
whose `private_keys` and `certs` are insertion-ordered dicts from alias to
entry; they are modelled as lists in that order.  `entry_alias` models the
Python `alias` (that identifier is reserved in Lean). -/

structure PrivateKeyEntry where
  entry_alias : List Char
  algorithm_oid : List Nat
  pkey : List Nat
  pkey_pkcs8 : List Nat
  cert_chain : List (List Char × List Nat)

structure TrustedCertEntry where
  entry_alias : List Char
  cert : List Nat

structure KeyStore where
  private_keys : List PrivateKeyEntry
  certs : List TrustedCertEntry

/-- `jks.util.RSA_ENCRYPTION_OID` — the OID tuple `(1,2,840,113549,1,1,1)`
naming PKCS#1 rsaEncryption. -/
def RSA_ENCRYPTION_OID : List Nat := [1, 2, 840, 113549, 1, 1, 1]

/-- tls.py lines 125–139: the accumulation loop of `convert_jks_to_pem`
over an already-loaded keystore — each private key (RSA-labelled raw key or
generically-labelled PKCS#8 key) followed by its chain's certificates, then
every trusted certificate. -/
def jks_to_pem (ks : KeyStore) : List Char :=
  let pem_str : List Char := []
  let pem_str := ks.private_keys.foldl (fun pem_str pk =>
    let pem_str :=
      if pk.algorithm_oid = RSA_ENCRYPTION_OID then
        pem_str ++ bytes_to_pem_str pk.pkey ("RSA PRIVATE KEY".toList)
      else
        pem_str ++ bytes_to_pem_str pk.pkey_pkcs8 ("PRIVATE KEY".toList)
    pk.cert_chain.foldl
      (fun pem_str c => pem_str ++ bytes_to_pem_str c.2 ("CERTIFICATE".toList))
      pem_str) pem_str
  ks.certs.foldl
    (fun pem_str c => pem_str ++ bytes_to_pem_str c.cert ("CERTIFICATE".toList))
    pem_str

/-- Spec §4.5: the blocks a private-key entry contributes — its key block
(labelled by the algorithm OID) first, then its chain's certificates in
chain order. -/
def entryBlocks (pk : PrivateKeyEntry) : List (List Char × List Nat) :=
  (if pk.algorithm_oid = RSA_ENCRYPTION_OID then
    ("RSA PRIVATE KEY".toList, pk.pkey)
  else
    ("PRIVATE KEY".toList, pk.pkey_pkcs8))
  :: pk.cert_chain.map (fun c => ("CERTIFICATE".toList, c.2))

/-- Spec §4.5 `container_to_pem` emission order: every private-key entry's
blocks in parse order, then every trusted certificate in parse order. -/
def jksBlocks (ks : KeyStore) : List (List Char × List Nat) :=
  ks.private_keys.flatMap entryBlocks
  ++ ks.certs.map (fun c => ("CERTIFICATE".toList, c.cert))

/-- Rendering a list of (label, bytes) blocks to PEM text. -/
def renderBlocks (bs : List (List Char × List Nat)) : List Char :=
  (bs.map (fun b => bytes_to_pem_str b.2 b.1)).flatten

theorem renderBlocks_append (xs ys : List (List Char × List Nat)) :
    renderBlocks (xs ++ ys) = renderBlocks xs ++ renderBlocks ys := by
  simp [renderBlocks]

theorem foldl_append_flatten {α : Type} (f : α → List Char) :
    ∀ (l : List α) (a : List Char),
      l.foldl (fun acc x => acc ++ f x) a = a ++ (l.map f).flatten := by
  intro l
  induction l with
  | nil => intro a; simp
  | cons x xs ih =>
      intro a
      simp only [List.foldl_cons, List.map_cons, List.flatten_cons, ih,
        List.append_assoc]

/-- The accumulation loop of `convert_jks_to_pem` renders exactly the spec's
block list, in the spec's order. -/
theorem jks_to_pem_eq_renderBlocks (ks : KeyStore) :
    jks_to_pem ks = renderBlocks (jksBlocks ks) := by
  have hentry : ∀ (pk : PrivateKeyEntry) (a : List Char),
      pk.cert_chain.foldl
        (fun pem_str c => pem_str ++ bytes_to_pem_str c.2 ("CERTIFICATE".toList))
        (if pk.algorithm_oid = RSA_ENCRYPTION_OID then
          a ++ bytes_to_pem_str pk.pkey ("RSA PRIVATE KEY".toList)
        else
          a ++ bytes_to_pem_str pk.pkey_pkcs8 ("PRIVATE KEY".toList))
      = a ++ renderBlocks (entryBlocks pk) := by
    intro pk a
    by_cases hoid : pk.algorithm_oid = RSA_ENCRYPTION_OID
    · rw [if_pos hoid, foldl_append_flatten
          (fun c : List Char × List Nat => bytes_to_pem_str c.2 ("CERTIFICATE".toList))]
      simp [renderBlocks, entryBlocks, hoid, List.map_map, Function.comp_def,
        List.append_assoc]
    · rw [if_neg hoid, foldl_append_flatten
          (fun c : List Char × List Nat => bytes_to_pem_str c.2 ("CERTIFICATE".toList))]
      simp [renderBlocks, entryBlocks, hoid, List.map_map, Function.comp_def,
        List.append_assoc]
  have houter : ∀ (pks : List PrivateKeyEntry) (a : List Char),
      pks.foldl (fun pem_str pk =>
        pk.cert_chain.foldl
          (fun pem_str c => pem_str ++ bytes_to_pem_str c.2 ("CERTIFICATE".toList))
          (if pk.algorithm_oid = RSA_ENCRYPTION_OID then
            pem_str ++ bytes_to_pem_str pk.pkey ("RSA PRIVATE KEY".toList)
          else
            pem_str ++ bytes_to_pem_str pk.pkey_pkcs8 ("PRIVATE KEY".toList))) a
      = a ++ renderBlocks (pks.flatMap entryBlocks) := by
    intro pks
    induction pks with
    | nil => intro a; simp [renderBlocks]
    | cons pk pks ih =>
        intro a
        simp only [List.foldl_cons]
        rw [hentry pk a, ih, List.flatMap_cons, renderBlocks_append,
          List.append_assoc]
  simp only [jks_to_pem]
  rw [foldl_append_flatten
    (fun c : TrustedCertEntry => bytes_to_pem_str c.cert ("CERTIFICATE".toList))]
  rw [houter ks.private_keys []]
  simp only [List.nil_append, jksBlocks, renderBlocks_append]
  congr 1
  simp [renderBlocks, List.map_map, Function.comp_def]

/-- Renaming every alias leaves the keystore's PEM rendering unchanged. -/
def relabelKeyStore (ks : KeyStore) (f g : List Char → List Char) : KeyStore where
  private_keys := ks.private_keys.map fun pk => { pk with entry_alias := f pk.entry_alias }
  certs := ks.certs.map fun c => { c with entry_alias := g c.entry_alias }

theorem jksBlocks_relabel (ks : KeyStore) (f g : List Char → List Char) :
    jksBlocks (relabelKeyStore ks f g) = jksBlocks ks := by
  simp only [jksBlocks, relabelKeyStore]
  congr 1
  · induction ks.private_keys with
    | nil => rfl
    | cons pk pks ih =>
        simp only [List.map_cons, List.flatMap_cons, ih]
        congr 1
  · induction ks.certs with
    | nil => rfl
    | cons c cs ih => simp only [List.map_cons, ih]

/-! ## Password sanitization (`string.printable`, tls.py line 50) -/

/-- Python's `string.printable`: digits, `ascii_letters`, punctuation and
whitespace, in that order (the apostrophe and backtick appear as `\x27` and
`\x60`, the braces as `\x7b`/`\x7d`). -/
def string_printable : List Char :=
  ("0123456789abcdefghijklmnopqrstuvwxyzABCDEFGHIJKLMNOPQRSTUVWXYZ" ++
   "!\"#$%&\x27()*+,-./:;<=>?@[\\]^_\x60\x7b|\x7d~ \t\n\x0d\x0b\x0c").toList

/-- tls.py line 50: keep exactly the characters that are in
`string.printable` and are not `@`. -/
def pw_filter (content : List Char) : List Char :=
  content.filter (fun x => string_printable.contains x && !(x == '@'))

set_option maxRecDepth 16384 in
/-- Characterization of membership in `string.printable` by code point:
codes 32–126 (the classically printable ASCII range) together with the
whitespace controls 9–13. -/
theorem mem_string_printable_iff (c : Char) :
    c ∈ string_printable ↔
      (32 ≤ c.toNat ∧ c.toNat ≤ 126) ∨ (9 ≤ c.toNat ∧ c.toNat ≤ 13) := by
  constructor
  · intro h
    fin_cases h <;> simp
  · intro h
    have hlt : c.toNat < 256 := by omega
    have hofNat : Char.ofNat c.toNat = c := by
      apply Char.ext
      simp only [Char.ofNat, Nat.isValidChar]
      rw [dif_pos (Or.inl (by omega))]
      rfl
    have hall : ∀ n, n < 256 →
        ((32 ≤ n ∧ n ≤ 126) ∨ (9 ≤ n ∧ n ≤ 13)) →
        Char.ofNat n ∈ string_printable := by decide
    have := hall c.toNat hlt h
    rwa [hofNat] at this

/-! ## The filesystem / effect model

The functions of `tls.py` below line 34 touch the world: they read the
password file at `os.getcwd() + "/" + constants.SSL_CONFIG.*`, load
keystores through `jks.KeyStore.load`, and write PEM files.  `Env` models
that world: the optional content of the password file, and keystore loading
as a function from (path, password) to a loaded keystore or an error —
`jks.KeyStore.load` itself (parse, integrity check, decryption) is outside
`src/`.  Each operation returns the list of filesystem events it performed,
together with its result; a Python exception is an `error` result, and
events that would come after it do not happen. -/

inductive TlsError where
  /-- The `AssertionError('material_passwd is not present in directory: …')`
  of tls.py line 44 — the spec's `NotFound`. -/
  | materialPasswdNotFound (path : List Char)
  /-- Any failure raised inside `jks.KeyStore.load` (format, integrity or
  decryption error). -/
  | keystoreLoadError (msg : List Char)
deriving DecidableEq

inductive Event where
  /-- The password file was opened and read (tls.py lines 46–47). -/
  | readPwdFile
  /-- `open(path, "w")` followed by a full write of `content`
  (tls.py lines 152–153). -/
  | writeFile (path : List Char) (content : List Char)
deriving DecidableEq

def Event.isRead : Event → Bool
  | .readPwdFile => true
  | _ => false

structure Env where
  cwd : List Char
  /-- Content of `cwd/material_passwd`, when that file exists. -/
  password_file : Option (List Char)
  /-- `jks.KeyStore.load path pw` with `try_decrypt_keys=True`. -/
  load : List Char → List Char → Except TlsError KeyStore

/-- Modelled from the spec: the `constants` module is not under `src/`;
§6 fixes the working-directory-relative filename conventions. -/
def CRYPTO_MATERIAL_PASSWORD : List Char := "material_passwd".toList

/-- Modelled from the spec (§6): identity keystore filename. -/
def K_CERTIFICATE_CONFIG : List Char := "k_certificate".toList

/-- Modelled from the spec (§6): trust keystore filename. -/
def T_CERTIFICATE_CONFIG : List Char := "t_certificate".toList

/-- Modelled from the spec (§6): identity PEM output filename. -/
def PEM_K_CERTIFICATE_CONFIG : List Char := "k_certificate.pem".toList

/-- Modelled from the spec (§6): trust PEM output filename. -/
def PEM_T_CERTIFICATE_CONFIG : List Char := "t_certificate.pem".toList

def pwd_path (env : Env) : List Char :=
  env.cwd ++ "/".toList ++ CRYPTO_MATERIAL_PASSWORD

def k_jks_path (env : Env) : List Char :=
  env.cwd ++ "/".toList ++ K_CERTIFICATE_CONFIG

def t_jks_path (env : Env) : List Char :=
  env.cwd ++ "/".toList ++ T_CERTIFICATE_CONFIG

def k_pem_path (env : Env) : List Char :=
  env.cwd ++ "/".toList ++ PEM_K_CERTIFICATE_CONFIG

def t_pem_path (env : Env) : List Char :=
  env.cwd ++ "/".toList ++ PEM_T_CERTIFICATE_CONFIG

/-- tls.py lines 34–51 (`_get_cert_pw`): raise if the password file is
absent, otherwise read it and drop every character that is not in
`string.printable` or is `@`. -/
def _get_cert_pw (env : Env) : List Event × Except TlsError (List Char) :=
  match env.password_file with
  | none => ([], .error (.materialPasswdNotFound (pwd_path env)))
  | some content => ([.readPwdFile], .ok (pw_filter content))

/-- tls.py lines 74–81. -/
def get_key_store_pwd (env : Env) : List Event × Except TlsError (List Char) :=
  _get_cert_pw env

/-- tls.py lines 84–91. -/
def get_trust_store_pwd (env : Env) : List Event × Except TlsError (List Char) :=
  _get_cert_pw env

/-- tls.py lines 112–139 (`convert_jks_to_pem`): load (and decrypt) the
keystore, then render it with the accumulation loop `jks_to_pem`. -/
def convert_jks_to_pem (env : Env) (jks_path pw : List Char) :
    Except TlsError (List Char) :=
  match env.load jks_path pw with
  | .error e => .error e
  | .ok ks => .ok (jks_to_pem ks)

/-- tls.py lines 141–153 (`write_pem`): convert first; only on success open
the output file in `"w"` mode and write the whole text. -/
def write_pem (env : Env) (jks_path pw output_path : List Char) :
    List Event × Option TlsError :=
  match convert_jks_to_pem env jks_path pw with
  | .error e => ([], some e)
  | .ok pem_str => ([.writeFile output_path pem_str], none)

/-- tls.py lines 155–164 (`write_pems`): identity store first — password
read, convert, write — then the trust store the same way; a raised error
stops everything after it. -/
def write_pems (env : Env) : List Event × Option TlsError :=
  match get_key_store_pwd env with
  | (ev1, .error e) => (ev1, some e)
  | (ev1, .ok kpw) =>
    match write_pem env (k_jks_path env) kpw (k_pem_path env) with
    | (ev2, some e) => (ev1 ++ ev2, some e)
    | (ev2, none) =>
      match get_trust_store_pwd env with
      | (ev3, .error e) => (ev1 ++ ev2 ++ ev3, some e)
      | (ev3, .ok tpw) =>
        match write_pem env (t_jks_path env) tpw (t_pem_path env) with
        | (ev4, r) => (ev1 ++ ev2 ++ ev3 ++ ev4, r)

/-- A filesystem snapshot: path to content. -/
def FileMap : Type := List Char → Option (List Char)

/-- Effect of one event on a snapshot: a write replaces (or creates) the
file at its path; a read changes nothing. -/
def applyEvent (m : FileMap) : Event → FileMap
  | .readPwdFile => m
  | .writeFile p c => fun q => if q = p then some c else m q

def applyEvents (es : List Event) (m : FileMap) : FileMap :=
  es.foldl applyEvent m

/-! ## Helper lemmas for the claims -/

theorem printable_contains_eq (x : Char) :
    string_printable.contains x =
      decide ((32 ≤ x.toNat ∧ x.toNat ≤ 126) ∨ (9 ≤ x.toNat ∧ x.toNat ≤ 13)) := by
  rw [Bool.eq_iff_iff]
  simp only [decide_eq_true_eq]
  rw [show (string_printable.contains x = true) ↔ x ∈ string_printable by simp]
  exact mem_string_printable_iff x

theorem jksBlocks_label (ks : KeyStore) (b : List Char × List Nat)
    (hb : b ∈ jksBlocks ks) :
    b.1 = "RSA PRIVATE KEY".toList ∨ b.1 = "PRIVATE KEY".toList ∨
      b.1 = "CERTIFICATE".toList := by
  rcases List.mem_append.mp hb with h | h
  · obtain ⟨pk, _, hpk⟩ := List.mem_flatMap.mp h
    rcases List.mem_cons.mp hpk with h' | h'
    · subst h'
      by_cases hoid : pk.algorithm_oid = RSA_ENCRYPTION_OID
      · rw [if_pos hoid]; left; rfl
      · rw [if_neg hoid]; right; left; rfl
    · obtain ⟨c, _, hc⟩ := List.mem_map.mp h'
      subst hc; right; right; rfl
  · obtain ⟨c, _, hc⟩ := List.mem_map.mp h
    subst hc; right; right; rfl

theorem k_pem_ne_t_pem (env : Env) : k_pem_path env ≠ t_pem_path env := by
  intro h
  simp only [k_pem_path, t_pem_path, List.append_assoc] at h
  have := List.append_cancel_left h
  have := List.append_cancel_left this
  exact absurd this (by decide)

/-- The identity-store phase of `write_pems`: the error it stops with, if
any — from the password read or from converting/writing the identity store. -/
def identityPhaseError (env : Env) : Option TlsError :=
  match get_key_store_pwd env with
  | (_, .error e) => some e
  | (_, .ok kpw) => (write_pem env (k_jks_path env) kpw (k_pem_path env)).2

/-! ## The claims -/

/-- C1: the PEM block of `bytes_to_pem_str d L` round-trips — concatenating
its Base64 body lines (the markers and the line terminators stripped) and
Base64-decoding yields exactly `d`; consequently every block emitted by
`convert_jks_to_pem` has a Base64 body that decodes to the original
DER/key bytes. -/
theorem c1_pem_base64_roundtrip (d : List Nat) (L : List Char)
    (h : ∀ x ∈ d, x < 256) :
    b64decode (pemBodyLines d).flatten = d
    ∧ bytes_to_pem_str d L =
        ("-----BEGIN ".toList ++ L ++ "-----".toList ++ ['\n'])
        ++ List.intercalate ['\r', '\n'] (pemBodyLines d) ++ ['\n']
        ++ ("-----END ".toList ++ L ++ "-----".toList ++ ['\n'])
    ∧ (∀ (ks : KeyStore), ∀ b ∈ jksBlocks ks, (∀ x ∈ b.2, x < 256) →
        b64decode (pemBodyLines b.2).flatten = b.2) := by
  refine ⟨?_, ?_, ?_⟩
  · rw [pemBodyLines, chunks64_flatten]
    exact b64decode_b64encode d h
  · simp only [bytes_to_pem_str, pemBodyLines, List.append_assoc]
  · intro ks b _ hb
    rw [pemBodyLines, chunks64_flatten]
    exact b64decode_b64encode b.2 hb

theorem c1_pem_base64_roundtrip_witness :
    (∀ x ∈ [77, 97, 110], x < 256)
    ∧ b64decode (pemBodyLines [77, 97, 110]).flatten = [77, 97, 110] :=
  ⟨by decide,
   (c1_pem_base64_roundtrip [77, 97, 110] ("CERTIFICATE".toList) (by decide)).1⟩

/-- C2: `bytes_to_pem_str d L` is exactly the spec's byte-exact layout —
begin marker line, Base64 body hard-wrapped into 64-character lines (the
final line may be shorter) joined by carriage-return+newline with a single
newline after the body, end marker line — and the only labels
`convert_jks_to_pem` ever emits are `RSA PRIVATE KEY`, `PRIVATE KEY` and
`CERTIFICATE`. -/
theorem c2_pem_exact_format (d : List Nat) (L : List Char) :
    bytes_to_pem_str d L = pemSpecText d L
    ∧ (∀ line ∈ pemBodyLines d, 0 < line.length ∧ line.length ≤ 64)
    ∧ (∀ line ∈ (pemBodyLines d).dropLast, line.length = 64)
    ∧ (∀ (ks : KeyStore), ∀ b ∈ jksBlocks ks,
        b.1 = "RSA PRIVATE KEY".toList ∨ b.1 = "PRIVATE KEY".toList ∨
          b.1 = "CERTIFICATE".toList) :=
  ⟨bytes_to_pem_str_eq_spec d L,
   fun line hl => chunks64_mem_length (b64encode d) line hl,
   fun line hl => chunks64_dropLast_length (b64encode d) line hl,
   fun ks b hb => jksBlocks_label ks b hb⟩

theorem c2_pem_exact_format_witness :
    ("AQID".toList ∈ pemBodyLines [1, 2, 3])
    ∧ (0 < ("AQID".toList).length ∧ ("AQID".toList).length ≤ 64) :=
  ⟨by decide, (c2_pem_exact_format [1, 2, 3] ("CERTIFICATE".toList)).2.1
    ("AQID".toList) (by decide)⟩

/-- C10: on empty input the Base64 body is empty and the block degenerates
to the begin marker line, a single empty line, and the end marker line —
the 64-character body-line shape holding only vacuously. -/
theorem c10_empty_input_block (L : List Char) :
    bytes_to_pem_str [] L =
      "-----BEGIN ".toList ++ L ++ "-----".toList ++ ['\n', '\n']
      ++ "-----END ".toList ++ L ++ "-----".toList ++ ['\n']
    ∧ pemBodyLines [] = [] := by
  constructor
  · simp only [bytes_to_pem_str, b64encode, chunks64_nil, List.intercalate,
      List.intersperse, List.flatten_nil, List.nil_append, List.append_assoc]
    rfl
  · rfl

/-- C5: the conversion loop emits, in order, each private-key entry's key
block followed by its chain's certificate blocks (chain order), then each
trusted certificate's block, all in the container's parse (insertion)
order; aliases never influence the output (no alias-based sorting). -/
theorem c5_emission_order (ks : KeyStore) :
    jks_to_pem ks = renderBlocks (jksBlocks ks)
    ∧ jksBlocks ks =
        ks.private_keys.flatMap entryBlocks
        ++ ks.certs.map (fun c => ("CERTIFICATE".toList, c.cert))
    ∧ (∀ pk : PrivateKeyEntry,
        entryBlocks pk =
          (if pk.algorithm_oid = RSA_ENCRYPTION_OID then
            ("RSA PRIVATE KEY".toList, pk.pkey)
          else ("PRIVATE KEY".toList, pk.pkey_pkcs8))
          :: pk.cert_chain.map (fun c => ("CERTIFICATE".toList, c.2)))
    ∧ (∀ f g, jks_to_pem (relabelKeyStore ks f g) = jks_to_pem ks) :=
  ⟨jks_to_pem_eq_renderBlocks ks, rfl, fun _ => rfl,
   fun f g => by
    rw [jks_to_pem_eq_renderBlocks, jks_to_pem_eq_renderBlocks,
      jksBlocks_relabel]⟩

/-- C6: a private-key entry's key block is labelled `RSA PRIVATE KEY` and
encodes the raw key bytes exactly when its algorithm OID is the RSA
encryption OID; otherwise it is labelled `PRIVATE KEY` and encodes the
PKCS#8-wrapped bytes. -/
theorem c6_key_label_selection (pk : PrivateKeyEntry) :
    ((entryBlocks pk).head? = some ("RSA PRIVATE KEY".toList, pk.pkey) ↔
      pk.algorithm_oid = RSA_ENCRYPTION_OID)
    ∧ ((entryBlocks pk).head? = some ("PRIVATE KEY".toList, pk.pkey_pkcs8) ↔
      ¬ pk.algorithm_oid = RSA_ENCRYPTION_OID) := by
  have hlbl : ("RSA PRIVATE KEY".toList : List Char) ≠ "PRIVATE KEY".toList := by
    decide
  have hlbl' : ("PRIVATE KEY".toList : List Char) ≠ "RSA PRIVATE KEY".toList :=
    Ne.symm hlbl
  by_cases hoid : pk.algorithm_oid = RSA_ENCRYPTION_OID <;>
    simp [entryBlocks, hoid, Prod.ext_iff, hlbl, hlbl']

theorem c6_key_label_selection_witness :
    (entryBlocks ⟨[], RSA_ENCRYPTION_OID, [1], [2], []⟩).head? =
      some ("RSA PRIVATE KEY".toList, [1]) :=
  (c6_key_label_selection ⟨[], RSA_ENCRYPTION_OID, [1], [2], []⟩).1.mpr rfl

/-! Sample environments used by the closed instances below. -/

def sampleLoadOk : List Char → List Char → Except TlsError KeyStore :=
  fun _ _ => .ok ⟨[], []⟩

def sampleLoadErr : List Char → List Char → Except TlsError KeyStore :=
  fun _ _ => .error (.keystoreLoadError ("bad".toList))

def envOk : Env := ⟨"/work".toList, some ("pw".toList), sampleLoadOk⟩

def envErr : Env := ⟨"/work".toList, some ("pw".toList), sampleLoadErr⟩

def envNone : Env := ⟨"/work".toList, none, sampleLoadOk⟩

def envC3 : Env := ⟨"/work".toList, some ("p@ss\x01word".toList), sampleLoadOk⟩

def emptyFs : FileMap := fun _ => none

/-- C3: on success the password is the file content with every character
outside Python's printable set (code points 32–126 and the whitespace
controls 9–13) removed and every `@` removed, all other characters kept in
order; in particular `"p@ss\x01word"` yields `"pssword"`. -/
theorem c3_password_sanitization (env : Env) (content : List Char)
    (h : env.password_file = some content) :
    (_get_cert_pw env).2 =
      .ok (content.filter (fun x =>
        (decide ((32 ≤ x.toNat ∧ x.toNat ≤ 126) ∨ (9 ≤ x.toNat ∧ x.toNat ≤ 13)))
        && !(x == '@')))
    ∧ pw_filter ("p@ss\x01word".toList) = "pssword".toList := by
  constructor
  · simp only [_get_cert_pw, h]
    congr 1
    rw [pw_filter]
    apply List.filter_congr
    intro x _
    rw [printable_contains_eq]
  · decide

theorem c3_password_sanitization_witness :
    envC3.password_file = some ("p@ss\x01word".toList)
    ∧ (_get_cert_pw envC3).2 =
      .ok (("p@ss\x01word".toList).filter (fun x =>
        (decide ((32 ≤ x.toNat ∧ x.toNat ≤ 126) ∨ (9 ≤ x.toNat ∧ x.toNat ≤ 13)))
        && !(x == '@'))) :=
  ⟨rfl, (c3_password_sanitization envC3 ("p@ss\x01word".toList) rfl).1⟩

/-- C4: `get_password` fails — and fails with the missing-password-file
error naming `working_dir/material_passwd` — exactly when the password
file is absent; when it is present no error is raised. -/
theorem c4_password_not_found_iff (env : Env) :
    ((_get_cert_pw env).2 =
        .error (.materialPasswdNotFound (pwd_path env)) ↔
      env.password_file = none)
    ∧ (∀ e, (_get_cert_pw env).2 = .error e → env.password_file = none) := by
  cases h : env.password_file <;> simp [_get_cert_pw, h]

theorem c4_password_not_found_iff_witness :
    (_get_cert_pw envNone).2 =
      .error (.materialPasswdNotFound (pwd_path envNone)) :=
  (c4_password_not_found_iff envNone).1.mpr rfl

/-- C7 (amended): during one `write_pems` call the password file is read
once per store conversion — twice when the identity phase succeeds, once
when it fails — and both reads see the same file, so the identity and
trust conversions receive the same password value. -/
theorem c7_password_read_per_store (env : Env) (content : List Char)
    (h : env.password_file = some content) :
    get_key_store_pwd env = get_trust_store_pwd env
    ∧ (get_key_store_pwd env).2 = .ok (pw_filter content)
    ∧ (write_pems env).1.countP Event.isRead =
        (if (write_pem env (k_jks_path env) (pw_filter content)
              (k_pem_path env)).2 = none
         then 2 else 1) := by
  refine ⟨rfl, by simp [get_key_store_pwd, _get_cert_pw, h], ?_⟩
  cases hk : env.load (k_jks_path env) (pw_filter content) with
  | error e =>
      simp [write_pems, get_key_store_pwd, get_trust_store_pwd, _get_cert_pw,
        h, write_pem, convert_jks_to_pem, hk, List.countP_cons, List.countP_nil,
        Event.isRead]
  | ok ks1 =>
      cases ht : env.load (t_jks_path env) (pw_filter content) with
      | error e2 =>
          simp [write_pems, get_key_store_pwd, get_trust_store_pwd,
            _get_cert_pw, h, write_pem, convert_jks_to_pem, hk, ht,
            List.countP_cons, List.countP_nil, Event.isRead]
      | ok ks2 =>
          simp [write_pems, get_key_store_pwd, get_trust_store_pwd,
            _get_cert_pw, h, write_pem, convert_jks_to_pem, hk, ht,
            List.countP_cons, List.countP_nil, Event.isRead]

theorem c7_password_read_per_store_witness :
    envOk.password_file = some ("pw".toList)
    ∧ (write_pems envOk).1.countP Event.isRead =
        (if (write_pem envOk (k_jks_path envOk) (pw_filter ("pw".toList))
              (k_pem_path envOk)).2 = none
         then 2 else 1) :=
  ⟨rfl, (c7_password_read_per_store envOk ("pw".toList) rfl).2.2⟩

/-- C7 as frozen is false of the code: with the password file present and
both conversions succeeding, `write_pems` reads the password file twice
(`get_key_store_pwd` and `get_trust_store_pwd` each call `_get_cert_pw`,
which reads the file), not exactly once. -/
theorem c7_counterexample_two_reads :
    (write_pems envOk).1.countP Event.isRead = 2
    ∧ (write_pems envOk).1.countP Event.isRead ≠ 1 := by decide

/-- C9: if the conversion step fails, `write_pem` performs no filesystem
write at all — the error propagates and any pre-existing snapshot is left
untouched; on success the single write stores the complete PEM text at
`output_path`, overwriting whatever was there. -/
theorem c9_no_partial_write (env : Env) (p pw out : List Char) (m : FileMap) :
    (∀ e, convert_jks_to_pem env p pw = .error e →
      write_pem env p pw out = ([], some e)
      ∧ applyEvents (write_pem env p pw out).1 m = m)
    ∧ (∀ pem, convert_jks_to_pem env p pw = .ok pem →
      write_pem env p pw out = ([.writeFile out pem], none)
      ∧ applyEvents (write_pem env p pw out).1 m out = some pem
      ∧ ∀ q, q ≠ out → applyEvents (write_pem env p pw out).1 m q = m q) := by
  constructor
  · intro e he
    simp only [write_pem, he]
    exact ⟨trivial, rfl⟩
  · intro pem hpem
    simp only [write_pem, hpem]
    refine ⟨trivial, ?_, ?_⟩
    · show (if out = out then some pem else m out) = some pem
      rw [if_pos rfl]
    · intro q hq
      show (if q = out then some pem else m q) = m q
      rw [if_neg hq]

theorem c9_no_partial_write_witness :
    write_pem envErr ("a".toList) ("b".toList) ("c".toList) =
      ([], some (.keystoreLoadError ("bad".toList)))
    ∧ applyEvents
        (write_pem envOk ("a".toList) ("b".toList) ("c".toList)).1 emptyFs
        ("c".toList) = some (jks_to_pem ⟨[], []⟩) :=
  ⟨((c9_no_partial_write envErr ("a".toList) ("b".toList) ("c".toList)
      emptyFs).1 _ rfl).1,
   ((c9_no_partial_write envOk ("a".toList) ("b".toList) ("c".toList)
      emptyFs).2 (jks_to_pem ⟨[], []⟩) rfl).2.1⟩

/-- C8: `write_pems` handles the identity store strictly before the trust
store: if the identity phase (password read, conversion, write) fails, its
error is the result and the trust PEM is never written; and whenever the
trust PEM is written, the identity phase succeeded and the identity PEM
write appears strictly earlier in the event trace. -/
theorem c8_identity_before_trust (env : Env) :
    (∀ e, identityPhaseError env = some e →
      (write_pems env).2 = some e
      ∧ ∀ c, Event.writeFile (t_pem_path env) c ∉ (write_pems env).1)
    ∧ (∀ c, Event.writeFile (t_pem_path env) c ∈ (write_pems env).1 →
      identityPhaseError env = none
      ∧ ∃ c' pre post,
          (write_pems env).1 =
            pre ++ Event.writeFile (k_pem_path env) c' :: post
          ∧ Event.writeFile (t_pem_path env) c ∈ post) := by
  have hne := k_pem_ne_t_pem env
  have hne' : t_pem_path env ≠ k_pem_path env := Ne.symm hne
  cases hpw : env.password_file with
  | none =>
      simp [write_pems, identityPhaseError, get_key_store_pwd,
        get_trust_store_pwd, _get_cert_pw, hpw]
  | some content =>
      cases hk : env.load (k_jks_path env) (pw_filter content) with
      | error e1 =>
          simp [write_pems, identityPhaseError, get_key_store_pwd,
            get_trust_store_pwd, _get_cert_pw, hpw, write_pem,
            convert_jks_to_pem, hk]
      | ok ks1 =>
          cases ht : env.load (t_jks_path env) (pw_filter content) with
          | error e2 =>
              simp [write_pems, identityPhaseError, get_key_store_pwd,
                get_trust_store_pwd, _get_cert_pw, hpw, write_pem,
                convert_jks_to_pem, hk, ht, hne']
          | ok ks2 =>
              constructor
              · intro e he
                simp [identityPhaseError, get_key_store_pwd, _get_cert_pw,
                  hpw, write_pem, convert_jks_to_pem, hk] at he
              · intro c hc
                refine ⟨by simp [identityPhaseError, get_key_store_pwd,
                  _get_cert_pw, hpw, write_pem, convert_jks_to_pem, hk], ?_⟩
                simp only [write_pems, get_key_store_pwd, get_trust_store_pwd,
                  _get_cert_pw, hpw, write_pem, convert_jks_to_pem, hk, ht,
                  List.cons_append, List.nil_append] at hc ⊢
                simp only [List.mem_cons, List.not_mem_nil, or_false] at hc
                rcases hc with hc | hc | hc | hc
                · exact absurd hc (by simp)
                · exact absurd (congrArg (fun e => match e with
                    | Event.writeFile p _ => p
                    | _ => []) hc) hne'
                · exact absurd hc (by simp)
                · refine ⟨jks_to_pem ks1, [Event.readPwdFile],
                    [Event.readPwdFile,
                     Event.writeFile (t_pem_path env) (jks_to_pem ks2)], ?_, ?_⟩
                  · rfl
                  · rw [hc]
                    simp

theorem c8_identity_before_trust_witness :
    (write_pems envNone).2 =
      some (.materialPasswdNotFound (pwd_path envNone))
    ∧ Event.writeFile (t_pem_path envNone) [] ∉ (write_pems envNone).1 :=
  ⟨((c8_identity_before_trust envNone).1 _ rfl).1,
   ((c8_identity_before_trust envNone).1 _ rfl).2 []⟩

end HopsTls
